import Mathlib

/-!
Verification of the KingOps household-finance pipeline.

Strings are modelled as `List Char`; money amounts as `ℚ` (YNAB dollar
strings are finite decimals); calendar dates as year/month/day triples
ordered lexicographically, as Python `datetime.date` compares them.
Fallible code (Python exceptions) is modelled with `Option`/`Except`.
-/

namespace KingOps

/-- `s.toList` shorthand used to write string constants of the model. -/
def str (s : String) : List Char := s.toList

/-- Model of Python `str.lower()` (ASCII case folding suffices for the
repository's constant tables). -/
def lowerStr (l : List Char) : List Char := l.map Char.toLower

/-- Model of Python `str.strip()`: drop whitespace from both ends. -/
def trimStr (l : List Char) : List Char :=
  ((l.dropWhile Char.isWhitespace).reverse.dropWhile Char.isWhitespace).reverse

/-- Model of Python `str.replace(c, "")` for a single-character pattern. -/
def removeChar (c : Char) (l : List Char) : List Char := l.filter (fun x => x ≠ c)

/-- Python substring test `pat in l`. -/
def containsSub (pat : List Char) : List Char → Bool
  | [] => pat.isEmpty
  | c :: rest => pat.isPrefixOf (c :: rest) || containsSub pat rest

/-- Python `str.replace(pat, "")` for a nonempty pattern: delete every
non-overlapping occurrence, scanning left to right.  The fuel argument
(initially the string length) only serves structural termination; one
character is consumed per step, so it never runs out. -/
def replaceAllAux (pat : List Char) : Nat → List Char → List Char
  | 0, l => l
  | _ + 1, [] => []
  | fuel + 1, c :: rest =>
    if pat ≠ [] ∧ pat.isPrefixOf (c :: rest) then
      replaceAllAux pat fuel ((c :: rest).drop pat.length)
    else
      c :: replaceAllAux pat fuel rest

/-- Python `l.replace(pat, "")`. -/
def replaceAll (pat l : List Char) : List Char := replaceAllAux pat l.length l

/-- Value of a digit string, most significant first. -/
def digitsVal (l : List Char) : Nat :=
  l.foldl (fun acc c => acc * 10 + (c.toNat - ('0').toNat)) 0

/-- Model of Python `float(s)` restricted to finite decimal literals:
optional surrounding whitespace, optional sign, then digits with at most
one decimal point (`"12"`, `"12."`, `".5"`, `"-1234.56"`).  Special
forms (`inf`, `nan`, exponents, underscores) are outside the grammar the
spec's inputs use and are rejected.  `none` models `ValueError`. -/
def pyFloat (sIn : List Char) : Option ℚ :=
  let t := trimStr sIn
  let signBody : ℚ × List Char :=
    match t with
    | '-' :: rest => (-1, rest)
    | '+' :: rest => (1, rest)
    | _ => (1, t)
  let intPart := signBody.2.takeWhile (fun c => c ≠ '.')
  let rest := signBody.2.dropWhile (fun c => c ≠ '.')
  match rest with
  | [] =>
    if intPart ≠ [] ∧ intPart.all Char.isDigit then
      some (signBody.1 * digitsVal intPart)
    else none
  | _ :: fracPart =>
    if (intPart ≠ [] ∨ fracPart ≠ []) ∧ intPart.all Char.isDigit ∧
        fracPart.all Char.isDigit ∧ ¬ fracPart.contains '.' then
      some (signBody.1 * ((digitsVal intPart : ℚ) +
        (digitsVal fracPart : ℚ) / 10 ^ fracPart.length))
    else none

/-- A CSV cell as `_parse_dollar`/`_parse_date` receive it: either a value
for which `pd.isna` is true (missing), or a string. -/
inductive CsvVal where
  | na : CsvVal
  | str (s : List Char) : CsvVal
deriving DecidableEq

/-- Python `str(cell)`: a missing (NaN) cell prints as `"nan"`. -/
def csvStr : CsvVal → List Char
  | .na => str "nan"
  | .str s => s

/-- Embedding of `_parse_dollar` (src/ingest/ynab.py:22-27): `$` and `,`
are stripped and the rest converted with `float`; `none` models the
`ValueError` that `float` raises on an invalid token. -/
def parseDollar (val : CsvVal) : Option ℚ :=
  match val with
  | .na => some 0
  | .str v =>
    if v = [] ∨ v = str "$0.00" then some 0
    else
      let s := trimStr (removeChar ',' (removeChar '$' v))
      if s = [] then some 0 else pyFloat s

/-- A calendar date, as carried by Python `datetime.date`. -/
structure Date where
  year : Nat
  month : Nat
  day : Nat
deriving DecidableEq

/-- Python compares dates lexicographically by (year, month, day). -/
def dateLtP (a b : Date) : Prop :=
  a.year < b.year ∨ (a.year = b.year ∧
    (a.month < b.month ∨ (a.month = b.month ∧ a.day < b.day)))

instance (a b : Date) : Decidable (dateLtP a b) := by
  unfold dateLtP
  infer_instance

/-- `datetime.date.min` = 0001-01-01. -/
def dateMin : Date := ⟨1, 1, 1⟩

/-- Gregorian leap-year rule, as `datetime` uses for date validation. -/
def isLeap (y : Nat) : Bool := y % 4 = 0 ∧ (y % 100 ≠ 0 ∨ y % 400 = 0)

/-- Days in a month, as `datetime.date` validates its day argument. -/
def daysInMonth (y m : Nat) : Nat :=
  if m = 2 then (if isLeap y then 29 else 28)
  else if m = 4 ∨ m = 6 ∨ m = 9 ∨ m = 11 then 30
  else 31

/-- Model of `datetime.strptime(s, "%m/%d/%Y")`: a 1-2 digit month in
1..12, `/`, a 1-2 digit day in 1..31, `/`, an exactly-4-digit year, the
whole string consumed, the day valid for the month, and the year at
least `MINYEAR` = 1 (the `date` constructor validates both and raises
for year 0).  `none` models `ValueError`. -/
def strptimeMDY (s : List Char) : Option Date :=
  let mPart := s.takeWhile (fun c => c ≠ '/')
  let rest1 := s.dropWhile (fun c => c ≠ '/')
  match rest1 with
  | [] => none
  | _ :: rest2 =>
    let dPart := rest2.takeWhile (fun c => c ≠ '/')
    let rest3 := rest2.dropWhile (fun c => c ≠ '/')
    match rest3 with
    | [] => none
    | _ :: yPart =>
      if mPart.all Char.isDigit ∧ (mPart.length = 1 ∨ mPart.length = 2) ∧
          dPart.all Char.isDigit ∧ (dPart.length = 1 ∨ dPart.length = 2) ∧
          yPart.all Char.isDigit ∧ yPart.length = 4 ∧ ¬ yPart.contains '/' then
        let m := digitsVal mPart
        let d := digitsVal dPart
        let y := digitsVal yPart
        if 1 ≤ m ∧ m ≤ 12 ∧ 1 ≤ d ∧ d ≤ daysInMonth y m ∧ 1 ≤ y then
          some ⟨y, m, d⟩
        else none
      else none

/-- Embedding of `_parse_date` (src/ingest/ynab.py:30-38) as its register
call sites reach it: arguments there are `str(...)`-converted, hence the
`pd.isna` guard only fires on the empty string. -/
def parseDateStr (s : List Char) : Option Date :=
  if s = [] then none else strptimeMDY (trimStr s)

/-- ConfidenceLevel enum (src/schema/models.py:10-15). -/
inductive ConfidenceLevel where
  | reconciled
  | estimated
  | unknown
deriving DecidableEq

/-- Asset record (src/schema/models.py:77-89); fields not produced by the
ingestion path under verification (cost_basis, linked_account_id,
source_file_id) are omitted. -/
structure Asset where
  id : List Char
  asset_type : List Char
  name : List Char
  value : ℚ
  value_as_of : Date
  valuation_method : List Char
  confidence_level : ConfidenceLevel
deriving DecidableEq

/-- Liability record (src/schema/models.py:92-104); rate, payment and
source_file_id are omitted as above. -/
structure Liability where
  id : List Char
  liability_type : List Char
  name : List Char
  principal_balance : ℚ
  balance_as_of : Date
  linked_account_id : Option (List Char)
  confidence_level : ConfidenceLevel
deriving DecidableEq

/-- Transaction record (src/schema/models.py:40-61); fields the verified
code never reads (payee_normalized, confidence_score, source_file_id,
date_effective) are omitted. -/
structure Transaction where
  id : List Char
  account_id : List Char
  date_posted : Date
  amount : ℚ
  direction : List Char
  payee_raw : List Char
  category_raw : Option (List Char)
  category_group : Option (List Char)
  category_normalized : Option (List Char)
  memo : Option (List Char)
  is_transfer : Bool
  linked_transaction_id : Option (List Char)
  confidence_level : ConfidenceLevel
  source_row_index : Nat
  cleared : Option (List Char)
deriving DecidableEq

/-- Budget record (src/schema/models.py:64-74). -/
structure Budget where
  id : List Char
  period : List Char
  category_group : List Char
  category : List Char
  assigned : ℚ
  activity : ℚ
  available : ℚ
deriving DecidableEq

/-- Account record (src/schema/models.py:28-37), the fields ingestion
fills. -/
structure Account where
  id : List Char
  name : List Char
  account_type : List Char
deriving DecidableEq

/-- Embedding of `_account_id` (src/ingest/ynab.py:91-93):
`re.sub(r"[^a-z0-9]", "_", name.lower().strip())`. -/
def accountId (name : List Char) : List Char :=
  (trimStr (lowerStr name)).map (fun c =>
    if ('a' ≤ c ∧ c ≤ 'z') ∨ ('0' ≤ c ∧ c ≤ '9') then c else '_')

/-- Embedding of `_infer_account_type` (src/ingest/ynab.py:41-60). -/
def inferAccountType (name : List Char) : List Char :=
  let nl := lowerStr name
  if containsSub (str "checking") nl || containsSub (str "savings") nl then
    (if containsSub (str "checking") nl then str "checking" else str "savings")
  else if containsSub (str "401") name || containsSub (str "401k") nl ||
      containsSub (str "ira") nl then str "investment"
  else if containsSub (str "college") nl || containsSub (str "529") name then
    str "investment"
  else if containsSub (str "stocks") nl then str "investment"
  else if containsSub (str "house") nl && !containsSub (str "mortgage") nl then
    str "asset"
  else if containsSub (str "mortgage") nl || containsSub (str "heloc") nl then
    str "loan"
  else if [str "%", str "prime", str "apple card", str "disney", str "freedom",
      str "capital one", str "citi", str "amex"].any (fun x => containsSub x nl) then
    str "credit"
  else if nl = str "paypal" ∨ nl = str "venmo" ∨ nl = str "cash" ∨ nl = str "axos" then
    str "checking"
  else str "other"

/-- Embedding of `_infer_asset_type` (src/ingest/ynab.py:63-76). -/
def inferAssetType (name accountType : List Char) : List Char :=
  let nl := lowerStr name
  if containsSub (str "house") nl && !containsSub (str "mortgage") nl then str "home"
  else if containsSub (str "401") name || containsSub (str "401k") nl then str "401k"
  else if containsSub (str "ira") nl then str "ira"
  else if containsSub (str "college") nl || containsSub (str "529") name then str "529"
  else if containsSub (str "stocks") nl || accountType = str "investment" then
    str "brokerage"
  else str "other"

/-- Embedding of `_infer_liability_type` (src/ingest/ynab.py:79-88). -/
def inferLiabilityType (name accountType : List Char) : List Char :=
  let nl := lowerStr name
  if containsSub (str "mortgage") nl then str "mortgage"
  else if containsSub (str "heloc") nl then str "heloc"
  else if accountType = str "credit" then str "credit_card"
  else str "other"

/-- Embedding of `MERCHANT_NORMALIZE_MAP` (src/compute/behavioral.py:14-24),
in dict insertion order. -/
def MERCHANT_NORMALIZE_MAP : List (List Char × List Char) :=
  [(str "amzn mktp", str "Amazon"),
   (str "amazon.com", str "Amazon"),
   (str "amazon", str "Amazon"),
   (str "starbucks", str "Starbucks"),
   (str "netflix", str "Netflix"),
   (str "spotify", str "Spotify"),
   (str "apple", str "Apple"),
   (str "comcast", str "Comcast"),
   (str "t-mobile", str "T-Mobile")]

/-- Embedding of `_normalize_merchant` (src/compute/behavioral.py:51-59):
first map entry whose key occurs in the lowered, stripped payee wins;
otherwise the payee is returned unchanged. -/
def normalizeMerchant (payee : List Char) : List Char :=
  if payee = [] then []
  else
    let lower := trimStr (lowerStr payee)
    match MERCHANT_NORMALIZE_MAP.find? (fun kv => containsSub kv.1 lower) with
    | some kv => kv.2
    | none => payee

/-- Lookup in the association-list model of a Python dict. -/
def alookup {κ β : Type} [DecidableEq κ] (k : κ) : List (κ × β) → Option β
  | [] => none
  | (k2, v) :: rest => if k2 = k then some v else alookup k rest

/-- Python dict assignment `m[k] = v`: overwrite in place, or append. -/
def aset {κ β : Type} [DecidableEq κ] (k : κ) (v : β) : List (κ × β) → List (κ × β)
  | [] => [(k, v)]
  | (k2, v2) :: rest => if k2 = k then (k, v) :: rest else (k2, v2) :: aset k v rest

/-- `m.values()` of the dict model. -/
def avalues {κ β : Type} (m : List (κ × β)) : List β := m.map (fun p => p.2)

/-- One iteration of the keep-latest loops of `compute_net_worth`
(src/compute/balance_sheet.py:67-76), generic in the projections used by
the two textually identical loops (assets: id/value/value_as_of;
liabilities: id/principal_balance/balance_as_of).  The state is the pair
of dicts (`*_values`, `*_dates`); the entry is stored when its id is
absent or its date is strictly greater than the stored date. -/
def keepStep {α : Type} (gid : α → List Char) (gval : α → ℚ) (gdate : α → Date)
    (st : List (List Char × ℚ) × List (List Char × Date)) (a : α) :
    List (List Char × ℚ) × List (List Char × Date) :=
  if (alookup (gid a) st.1).isNone ∨ dateLtP ((alookup (gid a) st.2).getD dateMin) (gdate a)
  then (aset (gid a) (gval a) st.1, aset (gid a) (gdate a) st.2)
  else st

/-- The keep-latest fold of `compute_net_worth` over one entity list. -/
def keepFold {α : Type} (gid : α → List Char) (gval : α → ℚ) (gdate : α → Date)
    (entries : List α) : List (List Char × ℚ) × List (List Char × Date) :=
  entries.foldl (keepStep gid gval gdate) ([], [])

/-- `asset_values` / `asset_dates` after the loop at
src/compute/balance_sheet.py:67-71. -/
def keepAssets (assets : List Asset) : List (List Char × ℚ) × List (List Char × Date) :=
  keepFold Asset.id Asset.value Asset.value_as_of assets

/-- `liability_values` / `liability_dates` after the loop at
src/compute/balance_sheet.py:73-76. -/
def keepLiabs (liabs : List Liability) : List (List Char × ℚ) × List (List Char × Date) :=
  keepFold Liability.id Liability.principal_balance Liability.balance_as_of liabs

/-- Embedding of `_count_by_confidence` (src/compute/balance_sheet.py:38-43). -/
def countByConfidence (assets : List Asset) (liabs : List Liability) :
    Nat × Nat × Nat × Nat :=
  (assets.countP (fun a => a.confidence_level = ConfidenceLevel.reconciled),
   assets.countP (fun a => a.confidence_level = ConfidenceLevel.estimated),
   liabs.countP (fun l => l.confidence_level = ConfidenceLevel.reconciled),
   liabs.countP (fun l => l.confidence_level = ConfidenceLevel.estimated))

/-- NetWorthPoint (src/compute/balance_sheet.py:11-23). -/
structure NetWorthPoint where
  date : Date
  total_assets : ℚ
  total_liabilities : ℚ
  net_worth : ℚ
  confidence_level : ConfidenceLevel
  assets_reconciled : Nat
  assets_estimated : Nat
  liabilities_reconciled : Nat
  liabilities_estimated : Nat
deriving DecidableEq

/-- `max(asset_dates.values(), default=today)`: Python's `max` with a
`default` uses the default only when the iterable is empty; a nonempty
list's maximum is taken over its elements alone. -/
def maxDateD (ds : List Date) (dflt : Date) : Date :=
  match ds with
  | [] => dflt
  | d :: rest => rest.foldl (fun acc x => if dateLtP acc x then x else acc) d

/-- Embedding of `compute_net_worth` (src/compute/balance_sheet.py:46-104).
`today` stands for `date.today()`, an input of the model. -/
def computeNetWorth (today : Date) (assets : List Asset) (liabs : List Liability)
    (asOf : Option Date) : NetWorthPoint :=
  if assets = [] ∧ liabs = [] then
    { date := asOf.getD today
      total_assets := 0
      total_liabilities := 0
      net_worth := 0
      confidence_level := ConfidenceLevel.unknown
      assets_reconciled := 0
      assets_estimated := 0
      liabilities_reconciled := 0
      liabilities_estimated := 0 }
  else
    let ak := keepAssets assets
    let lk := keepLiabs liabs
    let total_assets := (avalues ak.1).sum
    let total_liabilities := (avalues lk.1).sum
    let assets_list := assets.filter (fun a => (alookup a.id ak.1).isSome)
    let liabs_list := liabs.filter (fun l => (alookup l.id lk.1).isSome)
    let c := countByConfidence assets_list liabs_list
    let conf :=
      if c.1 + c.2.2.1 > 0 ∧ c.2.1 + c.2.2.2 = 0 then ConfidenceLevel.reconciled
      else if c.1 + c.2.1 + c.2.2.1 + c.2.2.2 > 0 then ConfidenceLevel.estimated
      else ConfidenceLevel.unknown
    { date := asOf.getD (maxDateD (avalues ak.2) today)
      total_assets := total_assets
      total_liabilities := total_liabilities
      net_worth := total_assets - total_liabilities
      confidence_level := conf
      assets_reconciled := c.1
      assets_estimated := c.2.1
      liabilities_reconciled := c.2.2.1
      liabilities_estimated := c.2.2.2 }

/-- Spec-side description of the keep-latest rule, for comparison with
the fold above: among the entries carrying a given id, the first one
whose date no other such entry strictly exceeds — that is, the first
occurrence of the maximum date. -/
def specKeepLatest {α : Type} (gid : α → List Char) (gdate : α → Date)
    (entries : List α) (id : List Char) : Option α :=
  let mine := entries.filter (fun a => decide (gid a = id))
  mine.find? (fun a => mine.all (fun b => decide (¬ dateLtP (gdate a) (gdate b))))

/-- Spec-side list of kept (latest-per-id, tie to first) assets. -/
def specKeptAssets (assets : List Asset) : List Asset :=
  assets.filter (fun a => decide (specKeepLatest Asset.id Asset.value_as_of assets a.id = some a))

/-- Spec-side list of kept liabilities. -/
def specKeptLiabs (liabs : List Liability) : List Liability :=
  liabs.filter (fun l =>
    decide (specKeepLatest Liability.id Liability.balance_as_of liabs l.id = some l))

/-- The confidence rollup formula of the spec, applied to a choice of
asset/liability lists. -/
def specConfRollup (assets : List Asset) (liabs : List Liability) : ConfidenceLevel :=
  let c := countByConfidence assets liabs
  if c.1 + c.2.2.1 > 0 ∧ c.2.1 + c.2.2.2 = 0 then ConfidenceLevel.reconciled
  else if c.1 + c.2.1 + c.2.2.1 + c.2.2.2 > 0 then ConfidenceLevel.estimated
  else ConfidenceLevel.unknown

/-- MonthlyAllocation record (src/compute/cash_flow.py:28-38). -/
structure MonthlyAllocation where
  period : List Char
  category_group : List Char
  category : List Char
  planned : ℚ
  actual : ℚ
  variance : ℚ
  rollup : List Char
deriving DecidableEq

/-- Embedding of `ROLLUP_MAP` (src/compute/cash_flow.py:14-25). -/
def ROLLUP_MAP : List (List Char × List Char) :=
  [(str "🏠 Core", str "needs"),
   (str "🔁 True", str "needs"),
   (str "Credit Card Payments", str "debt"),
   (str "📺 Subs", str "wants"),
   (str "🌿 QoL", str "wants"),
   (str "📈 LT", str "savings"),
   (str "🚧 Projects", str "savings"),
   (str "Business/Passthrough Accounts", str "other"),
   (str "Hidden Categories", str "wants"),
   (str "Inflow", str "income")]

/-- The (period, category_group, category) dict key used throughout
`get_monthly_allocation`. -/
def budgetKey (b : Budget) : List Char × List Char × List Char :=
  (b.period, b.category_group, b.category)

/-- `budget_by_period` of `get_monthly_allocation`
(src/compute/cash_flow.py:79-82): every record writes its `assigned`
under its key, later records overwriting earlier ones. -/
def plannedMap (budgets : List Budget) :
    List ((List Char × List Char × List Char) × ℚ) :=
  budgets.foldl (fun m b => aset (budgetKey b) b.assigned m) []

/-- `actual_by_period` (src/compute/cash_flow.py:85-88), likewise from
`activity`. -/
def actualMap (budgets : List Budget) :
    List ((List Char × List Char × List Char) × ℚ) :=
  budgets.foldl (fun m b => aset (budgetKey b) b.activity m) []

/-- The output row `get_monthly_allocation` appends for the first
occurrence of a key (src/compute/cash_flow.py:97-111): planned and
actual are dict lookups (hence from the last record with the key),
variance = actual − planned, rollup from `ROLLUP_MAP` with default
`"other"`. -/
def mkAllocRow (budgets : List Budget) (b : Budget) : MonthlyAllocation :=
  let planned := (alookup (budgetKey b) (plannedMap budgets)).getD 0
  let actual := (alookup (budgetKey b) (actualMap budgets)).getD 0
  { period := b.period
    category_group := b.category_group
    category := b.category
    planned := planned
    actual := actual
    variance := actual - planned
    rollup := (alookup b.category_group ROLLUP_MAP).getD (str "other") }

/-- Embedding of `get_monthly_allocation` (src/compute/cash_flow.py:76-112):
two overwrite-on-collision dict builds for planned (`assigned`) and
actual (`activity`), then an output row per first occurrence of each key. -/
def getMonthlyAllocation (budgets : List Budget) : List MonthlyAllocation :=
  (budgets.foldl
    (fun (st : List MonthlyAllocation × List (List Char × List Char × List Char)) b =>
      if budgetKey b ∈ st.2 then st
      else (st.1 ++ [mkAllocRow budgets b], budgetKey b :: st.2))
    ([], [])).1

/-- Spec-side selector for the amended C3: the last budget record
carrying a given (period, category_group, category) key. -/
def lastWithKey (k : List Char × List Char × List Char) (budgets : List Budget) :
    Option Budget :=
  (budgets.filter (fun b => decide (budgetKey b = k))).getLast?

/-- Embedding of the loop of `verify_transfers_net_zero`
(src/compute/balance_sheet.py:149-163); the accumulator mirrors the
`seen` set, and no branch ever appends to `mismatches`. -/
def verifyAux : List Transaction → List (List Char) →
    List (List Char × List Char × ℚ)
  | [], _ => []
  | tx :: rest, seen =>
    if tx.is_transfer = false ∨ tx.id ∈ seen then verifyAux rest seen
    else
      match tx.linked_transaction_id with
      | some lid => verifyAux rest (lid :: tx.id :: seen)
      | none => verifyAux rest seen

/-- Embedding of `verify_transfers_net_zero` (src/compute/balance_sheet.py:149-163). -/
def verifyTransfersNetZero (txs : List Transaction) :
    List (List Char × List Char × ℚ) :=
  verifyAux txs []

/-- JSON documents, as `json.load` produces them. -/
inductive Json where
  | null
  | bool (b : Bool)
  | num (q : ℚ)
  | strv (s : List Char)
  | arr (xs : List Json)
  | obj (kvs : List (List Char × Json))

/-- The exceptions the `load_store` try-block can raise: `OSError` from
opening or reading the file, `UnicodeDecodeError` when the document's
bytes are not valid UTF-8 (raised while `json.load` reads the text-mode
file; a `ValueError` subclass that is NOT a `json.JSONDecodeError`), and
`json.JSONDecodeError` when the decoded text is not valid JSON. -/
inductive PyExc where
  | osError
  | unicodeDecodeError
  | jsonDecodeError
deriving DecidableEq

/-- What attempting to open and `json.load` the household document comes
to: the file is absent (`path.exists()` false), the try-block raises one
of the exceptions above, or a document is obtained. -/
inductive ReadOutcome where
  | missing
  | raised (e : PyExc)
  | ok (j : Json)

/-- The handler clause `except (json.JSONDecodeError, OSError)` of
`load_store` (src/data/household_store.py:72): which raised exceptions it
catches.  `UnicodeDecodeError` is neither a `json.JSONDecodeError` nor an
`OSError`, so it is not caught. -/
def handledByLoadStore : PyExc → Bool
  | .osError => true
  | .jsonDecodeError => true
  | .unicodeDecodeError => false

/-- `_default_store` (src/data/household_store.py:56-61). -/
def defaultStore : Json :=
  Json.obj [(str "focus_areas", Json.arr []),
            (str "projects", Json.arr []),
            (str "todos", Json.arr [])]

/-- Embedding of `load_store` (src/data/household_store.py:64-73): the
absent-file early return yields the default; a raised exception yields
the default when the `except` clause catches it and propagates
(`Except.error`) otherwise; a successfully decoded document is returned
as-is. -/
def loadStore : ReadOutcome → Except PyExc Json
  | .missing => .ok defaultStore
  | .raised e => if handledByLoadStore e then .ok defaultStore else .error e
  | .ok j => .ok j

/-- A raw Plan CSV row, as `row.get` delivers its cells. -/
structure PlanRow where
  month : CsvVal
  categoryGroup : CsvVal
  category : CsvVal
  assigned : CsvVal
  activity : CsvVal
  available : CsvVal
deriving DecidableEq

/-- Python `f"..."` single-character `str.replace` chains used for the
budget id: spaces and slashes become underscores. -/
def underscorify (l : List Char) : List Char :=
  l.map (fun c => if c = ' ' then '_' else if c = '/' then '_' else c)

/-- The try-block body of `load_plan_csv` (src/ingest/ynab.py:103-123)
for one row.  The only raising step is `_parse_dollar` (`float` on an
invalid token); `Except.error` models the caught exception. -/
def processPlanRow (row : PlanRow) : Except Unit Budget :=
  let month := trimStr (csvStr row.month)
  let catGroup := trimStr (csvStr row.categoryGroup)
  let category := trimStr (csvStr row.category)
  match parseDollar (.str (csvStr row.assigned)) with
  | none => .error ()
  | some assigned =>
    match parseDollar (.str (csvStr row.activity)) with
    | none => .error ()
    | some activity =>
      match parseDollar (.str (csvStr row.available)) with
      | none => .error ()
      | some available =>
        .ok { id := underscorify (str "b_" ++ month ++ str "_" ++ catGroup ++
                str "_" ++ category)
              period := month
              category_group := catGroup
              category := category
              assigned := assigned
              activity := activity
              available := available }

/-- The parse-error audit entry `f"Row {idx}: {e}"`; only the row index
part is modelled, the exception text is irrelevant to the audit's shape. -/
def rowErrMsg (idx : Nat) : List Char := str "Row " ++ (Nat.repr idx).toList

/-- The row loop of `load_plan_csv` (src/ingest/ynab.py:102-125):
budgets and parse_errors accumulate in row order. -/
def loadPlanAux : Nat → List PlanRow → List Budget × List (List Char)
  | _, [] => ([], [])
  | idx, r :: rest =>
    match processPlanRow r with
    | .ok b =>
      let p := loadPlanAux (idx + 1) rest
      (b :: p.1, p.2)
    | .error _ =>
      let p := loadPlanAux (idx + 1) rest
      (p.1, rowErrMsg idx :: p.2)

/-- Embedding of `load_plan_csv` (src/ingest/ynab.py:96-136): the budget
list, the audit's parse_errors, and the audit's row_count `len(df)`. -/
def loadPlanCsv (rows : List PlanRow) : List Budget × List (List Char) × Nat :=
  let p := loadPlanAux 0 rows
  (p.1, p.2, rows.length)

/-- A raw Register CSV row, as `row.get` delivers its cells. -/
structure RegRow where
  account : CsvVal
  date : CsvVal
  payee : CsvVal
  categoryGroupCategory : CsvVal
  categoryGroup : CsvVal
  category : CsvVal
  memo : CsvVal
  outflow : CsvVal
  inflow : CsvVal
  cleared : CsvVal
deriving DecidableEq

/-- What one iteration of the register row loop contributes. -/
inductive RowOutcome where
  | skipped
  | rowError
  | startAsset (a : Asset)
  | startLiab (l : Liability)
  | regular (t : Transaction)
deriving DecidableEq

/-- Left zero-padding, as `strftime` and `%0Nd` produce. -/
def padZeros (w : Nat) (l : List Char) : List Char :=
  List.replicate (w - l.length) '0' ++ l

/-- `date_val.strftime("%Y%m%d")`. -/
def fmtYYYYMMDD (d : Date) : List Char :=
  padZeros 4 (Nat.repr d.year).toList ++ padZeros 2 (Nat.repr d.month).toList ++
    padZeros 2 (Nat.repr d.day).toList

/-- `accounts_map[acc_id].account_type if acc_id in accounts_map else "other"`
(src/ingest/ynab.py:184). -/
def accTypeLookup (amap : List (List Char × Account)) (accId : List Char) : List Char :=
  match alookup accId amap with
  | some acc => acc.account_type
  | none => str "other"

/-- Embedding of the row-loop body of `load_register_csv`
(src/ingest/ynab.py:163-241) for one row.  All cells are read first (the
two `_parse_dollar` calls are the raising steps, caught by the loop's
`except`), then rows without a parseable date or a nonempty account are
skipped, then a `"Starting Balance"` payee routes to an Asset (positive
amount) or Liability (zero or negative), and anything else becomes a
Transaction. -/
def processRow (amap : List (List Char × Account)) (idx : Nat) (row : RegRow) :
    RowOutcome :=
  let acc_name := trimStr (csvStr row.account)
  let date_val := parseDateStr (csvStr row.date)
  let payee := trimStr (csvStr row.payee)
  let cat_combo := csvStr row.categoryGroupCategory
  let cat_group := csvStr row.categoryGroup
  let category := csvStr row.category
  let memo := match row.memo with
    | .na => []
    | .str s => trimStr s
  match parseDollar (.str (csvStr row.outflow)) with
  | none => .rowError
  | some outflow =>
    match parseDollar (.str (csvStr row.inflow)) with
    | none => .rowError
    | some inflow =>
      let cleared : Option (List Char) := match row.cleared with
        | .na => none
        | .str s => some (trimStr s)
      match date_val with
      | none => .skipped
      | some d =>
        if acc_name = [] then .skipped
        else
          let acc_id := accountId acc_name
          if payee = str "Starting Balance" then
            let amt := inflow - outflow
            let acc_type := accTypeLookup amap acc_id
            if 0 < amt then
              .startAsset
                { id := str "asset_" ++ acc_id
                  asset_type := inferAssetType acc_name acc_type
                  name := acc_name
                  value := amt
                  value_as_of := d
                  valuation_method := str "mark_to_market"
                  confidence_level := ConfidenceLevel.reconciled }
            else
              .startLiab
                { id := str "liab_" ++ acc_id
                  liability_type := inferLiabilityType acc_name acc_type
                  name := acc_name
                  principal_balance := |amt|
                  balance_as_of := d
                  linked_account_id := some acc_id
                  confidence_level := ConfidenceLevel.reconciled }
          else
            let amount := inflow - outflow
            .regular
              { id := str "tx_" ++ (Nat.repr idx).toList ++ str "_" ++ acc_id ++
                  str "_" ++ fmtYYYYMMDD d
                account_id := acc_id
                date_posted := d
                amount := amount
                direction := if 0 ≤ amount then str "in" else str "out"
                payee_raw := payee
                category_raw := if cat_combo ≠ [] then some cat_combo else none
                category_group := if cat_group ≠ [] then some cat_group else none
                category_normalized := if category ≠ [] then some category else none
                memo := if memo ≠ [] then some memo else none
                is_transfer := (str "Transfer :").isPrefixOf payee
                linked_transaction_id := none
                confidence_level :=
                  if cleared = some (str "Reconciled") then ConfidenceLevel.reconciled
                  else if cleared = some (str "Cleared") then ConfidenceLevel.estimated
                  else ConfidenceLevel.estimated
                source_row_index := idx
                cleared := cleared }

/-- The register row loop (src/ingest/ynab.py:163-241), collecting
transactions, assets, liabilities and parse errors in row order. -/
def loadRegisterAux (amap : List (List Char × Account)) :
    Nat → List RegRow →
    List Transaction × List Asset × List Liability × List (List Char)
  | _, [] => ([], [], [], [])
  | idx, r :: rest =>
    let p := loadRegisterAux amap (idx + 1) rest
    match processRow amap idx r with
    | .skipped => p
    | .rowError => (p.1, p.2.1, p.2.2.1, rowErrMsg idx :: p.2.2.2)
    | .startAsset a => (p.1, a :: p.2.1, p.2.2.1, p.2.2.2)
    | .startLiab l => (p.1, p.2.1, l :: p.2.2.1, p.2.2.2)
    | .regular t => (t :: p.1, p.2.1, p.2.2.1, p.2.2.2)

/-- `payee.replace("Transfer :", "").strip()` followed by `_account_id`
(src/ingest/ynab.py:248-249): the account id a transfer payee points at. -/
def otherIdOf (t : Transaction) : List Char :=
  accountId (trimStr (replaceAll (str "Transfer :") t.payee_raw))

/-- The inner-scan match test of the transfer-linking pass
(src/ingest/ynab.py:256): a transfer on the account the payee names,
posted the same day, with absolute amounts within 0.01. -/
def txMatch (tx ot : Transaction) : Bool :=
  ot.is_transfer && decide (ot.account_id = otherIdOf tx) &&
    decide (ot.date_posted = tx.date_posted) &&
    decide (|(|ot.amount|) - (|tx.amount|)| < 1 / 100)

/-- Replace the element at one position. -/
def modifyAt {α : Type} (n : Nat) (f : α → α) : List α → List α
  | [] => []
  | x :: xs =>
    match n with
    | 0 => f x :: xs
    | n + 1 => x :: modifyAt n f xs

/-- The `enumerate`-then-filter building `transfer_txs`
(src/ingest/ynab.py:244): positions of transfer transactions, computed
once, before any mutation. -/
def transferIdxs (txs : List Transaction) : List Nat :=
  (List.range txs.length).filter (fun i =>
    match txs.get? i with
    | some t => t.is_transfer
    | none => false)

/-- The inner scan `for j, ot in enumerate(transactions)`
(src/ingest/ynab.py:253-259): first j ≠ i whose transaction matches. -/
def findMatchIdx (cur : List Transaction) (i : Nat) (tx : Transaction) : Option Nat :=
  (List.range cur.length).find? (fun j =>
    decide (j ≠ i) &&
      (match cur.get? j with
       | some ot => txMatch tx ot
       | none => false))

/-- One iteration of the transfer-linking loop (src/ingest/ynab.py:245-259):
on the first match, `linked_transaction_id` is set on both positions. -/
def linkStep (cur : List Transaction) (i : Nat) : List Transaction :=
  match cur.get? i with
  | none => cur
  | some tx =>
    if containsSub (str "Transfer :") tx.payee_raw then
      match findMatchIdx cur i tx with
      | some j =>
        let linkedId := (cur.get? j).map Transaction.id
        modifyAt j (fun t => { t with linked_transaction_id := some tx.id })
          (modifyAt i (fun t => { t with linked_transaction_id := linkedId }) cur)
      | none => cur
    else cur

/-- The transfer-linking pass of `load_register_csv`
(src/ingest/ynab.py:243-259). -/
def linkTransfers (txs : List Transaction) : List Transaction :=
  (transferIdxs txs).foldl linkStep txs

/-- Two snapshots of the same asset id carrying the same value date:
first encountered, value 100. -/
def tieAsset1 : Asset :=
  ⟨str "a", str "other", str "A", 100, ⟨2025, 1, 1⟩, str "mark_to_market",
    ConfidenceLevel.reconciled⟩

/-- Second snapshot, same id and date, value 200. -/
def tieAsset2 : Asset :=
  ⟨str "a", str "other", str "A", 200, ⟨2025, 1, 1⟩, str "mark_to_market",
    ConfidenceLevel.reconciled⟩

/-- A superseded (older-dated) Estimated snapshot of asset id `a`. -/
def confAsset1 : Asset :=
  ⟨str "a", str "other", str "A", 1, ⟨2025, 1, 1⟩, str "mark_to_market",
    ConfidenceLevel.estimated⟩

/-- The kept (latest-dated) Reconciled snapshot of asset id `a`. -/
def confAsset2 : Asset :=
  ⟨str "a", str "other", str "A", 2, ⟨2025, 2, 1⟩, str "mark_to_market",
    ConfidenceLevel.reconciled⟩

/-- First budget row of a duplicated (period, group, category) key. -/
def dupBudget1 : Budget :=
  ⟨str "b1", str "Jan 2025", str "G", str "C", 100, 0, 0⟩

/-- Second budget row with the same key, different assigned amount. -/
def dupBudget2 : Budget :=
  ⟨str "b2", str "Jan 2025", str "G", str "C", 200, 0, 0⟩

/-- The spec's allocation example: assigned 200, activity −250 in group
`🏠 Core`. -/
def coreBudget : Budget :=
  ⟨str "b0", str "Jan 2025", str "🏠 Core", str "Rent", 200, -250, 0⟩

/-- The allocation row the spec's example predicts for `coreBudget`:
variance −250 − 200 = −450, rollup `needs`. -/
def coreRow : MonthlyAllocation :=
  ⟨str "Jan 2025", str "🏠 Core", str "Rent", 200, -250, -450, str "needs"⟩

/-- A Starting Balance register row on account Brokerage with inflow
5000 and outflow 0. -/
def sbRowAsset : RegRow :=
  ⟨.str (str "Brokerage"), .str (str "01/15/2025"), .str (str "Starting Balance"),
   .str [], .str [], .str [], .na, .str (str "$0.00"), .str (str "$5,000.00"),
   .str (str "Reconciled")⟩

/-- The same row with inflow 0 and outflow 5000. -/
def sbRowLiab : RegRow :=
  ⟨.str (str "Brokerage"), .str (str "01/15/2025"), .str (str "Starting Balance"),
   .str [], .str [], .str [], .na, .str (str "$5,000.00"), .str (str "$0.00"),
   .str (str "Reconciled")⟩

/-- Transfer leg on Checking pointing at Savings, amount −100. -/
def wtx1 : Transaction :=
  { id := str "tx1"
    account_id := str "checking"
    date_posted := ⟨2025, 3, 1⟩
    amount := -100
    direction := str "out"
    payee_raw := str "Transfer : Savings"
    category_raw := none
    category_group := none
    category_normalized := none
    memo := none
    is_transfer := true
    linked_transaction_id := none
    confidence_level := ConfidenceLevel.estimated
    source_row_index := 0
    cleared := none }

/-- Transfer leg on Savings pointing at Checking, amount +100. -/
def wtx2 : Transaction :=
  { id := str "tx2"
    account_id := str "savings"
    date_posted := ⟨2025, 3, 1⟩
    amount := 100
    direction := str "in"
    payee_raw := str "Transfer : Checking"
    category_raw := none
    category_group := none
    category_normalized := none
    memo := none
    is_transfer := true
    linked_transaction_id := none
    confidence_level := ConfidenceLevel.estimated
    source_row_index := 1
    cleared := none }

/-- A transfer with no counterparty anywhere. -/
def wtx3 : Transaction :=
  { id := str "tx3"
    account_id := str "checking"
    date_posted := ⟨2025, 4, 1⟩
    amount := 50
    direction := str "in"
    payee_raw := str "Transfer : Nowhere"
    category_raw := none
    category_group := none
    category_normalized := none
    memo := none
    is_transfer := true
    linked_transaction_id := none
    confidence_level := ConfidenceLevel.estimated
    source_row_index := 2
    cleared := none }

/-- A transaction with its `linked_transaction_id` replaced. -/
def setLink (v : Option (List Char)) (t : Transaction) : Transaction :=
  { t with linked_transaction_id := v }

/-- Two transactions agreeing on every field the transfer-linking pass
reads (only `linked_transaction_id` may differ). -/
def sameCore (t u : Transaction) : Prop :=
  t.id = u.id ∧ t.account_id = u.account_id ∧ t.date_posted = u.date_posted ∧
  t.amount = u.amount ∧ t.payee_raw = u.payee_raw ∧ t.is_transfer = u.is_transfer

/-- Positionwise `sameCore` between a mutated transaction list and the
original. -/
def sameCoreL (cur txs : List Transaction) : Prop :=
  cur.length = txs.length ∧
  ∀ q t, txs.get? q = some t → ∃ u, cur.get? q = some u ∧ sameCore u t

/-- Single-key view of `keepStep`: the running (value, date) pair for one
fixed id, `none` while the id is unseen. -/
def keepOne {α : Type} (gval : α → ℚ) (gdate : α → Date)
    (o : Option (ℚ × Date)) (a : α) : Option (ℚ × Date) :=
  if o.isNone ∨ dateLtP ((o.map Prod.snd).getD dateMin) (gdate a)
  then some (gval a, gdate a) else o

/-! ### Helper lemmas -/

theorem alookup_aset_self {κ β : Type} [DecidableEq κ] (k : κ) (v : β) :
    ∀ m : List (κ × β), alookup k (aset k v m) = some v := by
  intro m
  induction m with
  | nil => simp [aset, alookup]
  | cons p rest ih =>
    by_cases h : p.1 = k
    · simp [aset, alookup, h]
    · simpa [aset, alookup, h] using ih

theorem alookup_aset_ne {κ β : Type} [DecidableEq κ] {k k2 : κ} (v : β)
    (h : k2 ≠ k) : ∀ m : List (κ × β), alookup k (aset k2 v m) = alookup k m := by
  intro m
  induction m with
  | nil => simp [aset, alookup, h]
  | cons p rest ih =>
    by_cases h2 : p.1 = k2
    · simp [aset, alookup, h2, h]
    · by_cases h3 : p.1 = k <;> simp [aset, alookup, h2, h3, Ne.symm h, ih]

theorem alookup_aset_isSome {κ β : Type} [DecidableEq κ] (k k2 : κ) (v : β)
    (m : List (κ × β)) (h : (alookup k m).isSome) :
    (alookup k (aset k2 v m)).isSome := by
  by_cases hk : k2 = k
  · subst hk
    simp [alookup_aset_self]
  · rwa [alookup_aset_ne v hk]

theorem dateLt_irrefl (d : Date) : ¬ dateLtP d d := by
  unfold dateLtP
  omega

theorem dateLt_trans {a b c : Date} (h1 : dateLtP a b) (h2 : dateLtP b c) :
    dateLtP a c := by
  unfold dateLtP at h1 h2 ⊢
  omega

theorem dateLt_of_not_lt_of_lt {m x a : Date} (h1 : ¬ dateLtP m x)
    (h2 : dateLtP m a) : dateLtP x a := by
  unfold dateLtP at h1 h2 ⊢
  omega

theorem dateLt_not_of_lt_of_not {m a b : Date} (h1 : dateLtP m a)
    (h2 : ¬ dateLtP m b) : ¬ dateLtP a b := by
  unfold dateLtP at h1 h2 ⊢
  omega

/-- Every nonempty list has a first element no other element's date
strictly exceeds. -/
theorem exists_latest {α : Type} (gdate : α → Date) :
    ∀ (l : List α), l ≠ [] → ∃ x ∈ l, ∀ b ∈ l, ¬ dateLtP (gdate x) (gdate b) := by
  intro l
  induction l with
  | nil => intro h; exact absurd rfl h
  | cons a rest ih =>
    intro _
    rcases eq_or_ne rest [] with hrest | hrest
    · subst hrest
      exact ⟨a, List.mem_singleton.mpr rfl, by
        intro b hb
        rw [List.mem_singleton] at hb
        subst hb
        exact dateLt_irrefl _⟩
    · obtain ⟨m, hm, hmax⟩ := ih hrest
      by_cases hma : dateLtP (gdate m) (gdate a)
      · refine ⟨a, List.mem_cons_self _ _, ?_⟩
        intro b hb
        rcases List.mem_cons.mp hb with hb | hb
        · subst hb; exact dateLt_irrefl _
        · exact dateLt_not_of_lt_of_not hma (hmax b hb)
      · refine ⟨m, List.mem_cons_of_mem _ hm, ?_⟩
        intro b hb
        rcases List.mem_cons.mp hb with hb | hb
        · subst hb; exact hma
        · exact hmax b hb

/-- `find?` of a pointwise-stronger predicate that still holds at the
found element finds the same element. -/
theorem find?_and_of_find? {α : Type} (p q : α → Bool) :
    ∀ (l : List α) (m : α), l.find? p = some m → q m = true →
      l.find? (fun x => p x && q x) = some m := by
  intro l
  induction l with
  | nil => intro m h; simp at h
  | cons x rest ih =>
    intro m h hq
    by_cases hpx : p x = true
    · rw [List.find?_cons_of_pos _ hpx] at h
      injection h with h
      subst h
      exact List.find?_cons_of_pos _ (by simp [hpx, hq])
    · rw [List.find?_cons_of_neg _ hpx] at h
      have := ih m h hq
      rw [List.find?_cons_of_neg _ (by simp [hpx])]
      exact this

/-! ### C1: dollar parsing -/

/-- C1 counterexample: the token `"abc"` is invalid after stripping `$`
and `,`, and `_parse_dollar` does not map it to `0.0`: `float("abc")`
raises `ValueError` (modelled by `none`), refuting the claim that every
invalid token yields `0.0` without raising. -/
theorem C1_counterexample : parseDollar (CsvVal.str (str "abc")) ≠ some 0 := by
  decide

/-- C1 (amended): `_parse_dollar` maps an absent value, the empty string,
the literal `"$0.00"`, and a whitespace-only remainder to `0.0`, and
parses well-formed dollar strings (`"$1,234.56"` to 1234.56 and
`"-$1,234.56"` to −1234.56); but a token that is still invalid after
stripping `$` and `,` (such as `"abc"`) raises `ValueError` (modelled by
`none`) rather than yielding `0.0`; the per-row `except` handlers of the
CSV loaders catch that error. -/
theorem C1_amended :
    parseDollar CsvVal.na = some 0 ∧
    parseDollar (CsvVal.str []) = some 0 ∧
    parseDollar (CsvVal.str (str "$0.00")) = some 0 ∧
    parseDollar (CsvVal.str (str "   ")) = some 0 ∧
    parseDollar (CsvVal.str (str "$1,234.56")) = some (1234.56 : ℚ) ∧
    parseDollar (CsvVal.str (str "-$1,234.56")) = some (-1234.56 : ℚ) ∧
    parseDollar (CsvVal.str (str "abc")) = none := by
  refine ⟨by decide, by decide, by decide, by decide, ?_, ?_, by decide⟩
  · simp [parseDollar, pyFloat, str, trimStr, removeChar, digitsVal]
    norm_num
  · simp [parseDollar, pyFloat, str, trimStr, removeChar, digitsVal]
    norm_num

/-! ### C7: verify_transfers_net_zero -/

theorem verifyAux_eq_nil : ∀ (txs : List Transaction) (seen : List (List Char)),
    verifyAux txs seen = [] := by
  intro txs
  induction txs with
  | nil => intro seen; rfl
  | cons t rest ih =>
    intro seen
    unfold verifyAux
    split
    · exact ih _
    · split
      · exact ih _
      · exact ih _

/-- C7: `verify_transfers_net_zero` returns the empty list on every
transaction list — no branch of its loop ever appends a mismatch. -/
theorem C7_always_empty (txs : List Transaction) :
    verifyTransfersNetZero txs = [] :=
  verifyAux_eq_nil txs []

/-! ### C8: household store resilience -/

/-- C8 (code bug): `load_store` silently recovers to the three-empty-
arrays default when the document is absent, unreadable (`OSError`), or
not valid JSON (`json.JSONDecodeError`) — but an existing document whose
bytes are not valid UTF-8 (hence not a valid JSON document) makes
`json.load` raise `UnicodeDecodeError`, which the
`except (json.JSONDecodeError, OSError)` clause does not catch, so
`load_store` raises instead of returning the default.  The claim (and
the spec's StorageCorruption contract of silent recovery) states the
intent; the handler clause misses this `ValueError` subclass. -/
theorem C8_unicode_gap :
    loadStore ReadOutcome.missing = Except.ok defaultStore ∧
    loadStore (ReadOutcome.raised PyExc.osError) = Except.ok defaultStore ∧
    loadStore (ReadOutcome.raised PyExc.jsonDecodeError) = Except.ok defaultStore ∧
    handledByLoadStore PyExc.unicodeDecodeError = false ∧
    loadStore (ReadOutcome.raised PyExc.unicodeDecodeError) =
      Except.error PyExc.unicodeDecodeError ∧
    defaultStore = Json.obj [(str "focus_areas", Json.arr []),
      (str "projects", Json.arr []), (str "todos", Json.arr [])] :=
  ⟨rfl, rfl, rfl, rfl, rfl, rfl⟩

/-! ### C9: plan rows are accounted for exactly once -/

theorem loadPlanAux_length : ∀ (rows : List PlanRow) (idx : Nat),
    (loadPlanAux idx rows).1.length + (loadPlanAux idx rows).2.length
      = rows.length := by
  intro rows
  induction rows with
  | nil => intro idx; rfl
  | cons r rest ih =>
    intro idx
    unfold loadPlanAux
    cases processPlanRow r with
    | ok b => simpa [Nat.succ_add] using congrArg Nat.succ (ih (idx + 1))
    | error e =>
      simp only [List.length_cons]
      have := ih (idx + 1)
      omega

/-- C9: every plan CSV row yields exactly one Budget record or exactly
one parse-error entry, so budgets + parse_errors = row_count. -/
theorem C9_row_accounting (rows : List PlanRow) :
    (loadPlanCsv rows).1.length + (loadPlanCsv rows).2.1.length
      = (loadPlanCsv rows).2.2 :=
  loadPlanAux_length rows 0

/-! ### C10: merchant normalization is idempotent -/

/-- C10: `_normalize_merchant` is idempotent: a payee that matches no
normalization key is returned unchanged, and each of the map's output
names re-normalizes to itself. -/
theorem C10_normalize_idempotent (p : List Char) :
    normalizeMerchant (normalizeMerchant p) = normalizeMerchant p := by
  by_cases hp : p = []
  · subst hp; rfl
  · rcases hfind : MERCHANT_NORMALIZE_MAP.find?
        (fun kv => containsSub kv.1 (trimStr (lowerStr p))) with _ | kv
    · simp [normalizeMerchant, hp, hfind]
    · have hval : normalizeMerchant p = kv.2 := by
        simp [normalizeMerchant, hp, hfind]
      rw [hval]
      have hmem := List.mem_of_find?_eq_some hfind
      simp only [MERCHANT_NORMALIZE_MAP, List.mem_cons, List.not_mem_nil,
        or_false] at hmem
      rcases hmem with h | h | h | h | h | h | h | h | h <;> subst h <;> decide

/-! ### C2: keep-latest-per-id machinery -/

theorem keepFold_lookup {α : Type} (gid : α → List Char) (gval : α → ℚ)
    (gdate : α → Date) (id : List Char) :
    ∀ (entries : List α) (m1 : List (List Char × ℚ)) (m2 : List (List Char × Date))
      (o : Option (ℚ × Date)),
      alookup id m1 = o.map Prod.fst → alookup id m2 = o.map Prod.snd →
      alookup id (entries.foldl (keepStep gid gval gdate) (m1, m2)).1 =
        ((entries.filter (fun a => decide (gid a = id))).foldl
          (keepOne gval gdate) o).map Prod.fst ∧
      alookup id (entries.foldl (keepStep gid gval gdate) (m1, m2)).2 =
        ((entries.filter (fun a => decide (gid a = id))).foldl
          (keepOne gval gdate) o).map Prod.snd := by
  intro entries
  induction entries with
  | nil => intro m1 m2 o h1 h2; exact ⟨h1, h2⟩
  | cons a rest ih =>
    intro m1 m2 o h1 h2
    rw [List.foldl_cons, List.filter_cons]
    by_cases hid : gid a = id
    · have hm1 : alookup (gid a) m1 = o.map Prod.fst := by rw [hid]; exact h1
      have hm2 : alookup (gid a) m2 = o.map Prod.snd := by rw [hid]; exact h2
      rw [if_pos (decide_eq_true hid)]
      rw [List.foldl_cons]
      by_cases hc : o.isNone = true ∨ dateLtP ((o.map Prod.snd).getD dateMin) (gdate a)
      · have hstep : keepStep gid gval gdate (m1, m2) a =
            (aset (gid a) (gval a) m1, aset (gid a) (gdate a) m2) := by
          unfold keepStep
          rw [if_pos]
          rw [hm1, hm2]
          rcases hc with hc | hc
          · left
            cases o with
            | none => rfl
            | some v => simp at hc
          · right
            exact hc
        have hone : keepOne gval gdate o a = some (gval a, gdate a) := by
          unfold keepOne
          rw [if_pos hc]
        rw [hstep, hone]
        exact ih _ _ (some (gval a, gdate a))
          (by rw [hid, alookup_aset_self]; rfl)
          (by rw [hid, alookup_aset_self]; rfl)
      · have hstep : keepStep gid gval gdate (m1, m2) a = (m1, m2) := by
          unfold keepStep
          rw [if_neg]
          rw [hm1, hm2]
          intro hcon
          apply hc
          rcases hcon with hcon | hcon
          · left
            cases o with
            | none => rfl
            | some v => simp at hcon
          · right
            exact hcon
        have hone : keepOne gval gdate o a = o := by
          unfold keepOne
          rw [if_neg hc]
        rw [hstep, hone]
        exact ih _ _ o h1 h2
    · rw [if_neg (by simp [hid])]
      have hstep : ∀ st : List (List Char × ℚ) × List (List Char × Date),
          st = (m1, m2) →
          alookup id (keepStep gid gval gdate st a).1 = alookup id m1 ∧
          alookup id (keepStep gid gval gdate st a).2 = alookup id m2 := by
        intro st hst
        subst hst
        unfold keepStep
        split
        · exact ⟨alookup_aset_ne _ hid _, alookup_aset_ne _ hid _⟩
        · exact ⟨rfl, rfl⟩
      obtain ⟨hs1, hs2⟩ := hstep (m1, m2) rfl
      exact ih (keepStep gid gval gdate (m1, m2) a).1
        (keepStep gid gval gdate (m1, m2) a).2 o
        (by rw [hs1]; exact h1) (by rw [hs2]; exact h2)

theorem keepOne_spec {α : Type} (gval : α → ℚ) (gdate : α → Date) :
    ∀ l : List α,
      l.foldl (keepOne gval gdate) none =
        (l.find? (fun a => l.all (fun b => decide (¬ dateLtP (gdate a) (gdate b))))).map
          (fun a => (gval a, gdate a)) := by
  intro l
  induction l using List.reverseRecOn with
  | nil => rfl
  | append_singleton l a ih =>
    rw [List.foldl_append, List.foldl_cons, List.foldl_nil]
    simp only [List.all_append, List.all_cons, List.all_nil, Bool.and_true]
    rcases eq_or_ne l [] with hl | hl
    · subst hl
      have hirr : decide (¬ dateLtP (gdate a) (gdate a)) = true :=
        decide_eq_true (dateLt_irrefl (gdate a))
      simp [keepOne, List.find?, hirr]
    · obtain ⟨x, hx, hxmax⟩ := exists_latest gdate l hl
      have hxp : (fun a0 => l.all fun b => decide (¬ dateLtP (gdate a0) (gdate b))) x
          = true := by
        simp only [List.all_eq_true]
        intro b hb
        exact decide_eq_true (hxmax b hb)
      have hsome : (l.find? (fun a0 => l.all fun b =>
          decide (¬ dateLtP (gdate a0) (gdate b)))).isSome := by
        rw [List.find?_isSome]
        exact ⟨x, hx, hxp⟩
      obtain ⟨m, hm⟩ := Option.isSome_iff_exists.mp hsome
      have hmem : m ∈ l := List.mem_of_find?_eq_some hm
      have hmax : ∀ b ∈ l, ¬ dateLtP (gdate m) (gdate b) := by
        have := List.find?_some hm
        simp only [List.all_eq_true, decide_eq_true_eq] at this
        exact this
      rw [ih, hm]
      by_cases hlt : dateLtP (gdate m) (gdate a)
      · have hone : keepOne gval gdate (some (gval m, gdate m)) a =
            some (gval a, gdate a) := by
          unfold keepOne
          rw [if_pos (Or.inr (by simpa using hlt))]
        simp only [Option.map_some']
        rw [hone]
        have hnonel : (l.find? fun x0 =>
            l.all (fun b => decide (¬ dateLtP (gdate x0) (gdate b))) &&
              decide (¬ dateLtP (gdate x0) (gdate a))) = none := by
          rw [List.find?_eq_none]
          intro x0 hx0
          have hlt0 : dateLtP (gdate x0) (gdate a) :=
            dateLt_of_not_lt_of_lt (hmax x0 hx0) hlt
          simp [hlt0]
        rw [List.find?_append, hnonel, Option.none_or]
        have hpa : ∀ b ∈ l, ¬ dateLtP (gdate a) (gdate b) := by
          intro b hb
          exact dateLt_not_of_lt_of_not hlt (hmax b hb)
        have : (l.all fun b => decide (¬ dateLtP (gdate a) (gdate b))) = true := by
          simp only [List.all_eq_true]
          intro b hb
          exact decide_eq_true (hpa b hb)
        have hpa2 : ((l.all fun b => decide (¬ dateLtP (gdate a) (gdate b))) &&
            decide (¬ dateLtP (gdate a) (gdate a))) = true := by
          rw [this, decide_eq_true (dateLt_irrefl (gdate a)), Bool.and_self]
        simp only [List.find?]
        rw [hpa2]
        rfl
      · have hone : keepOne gval gdate (some (gval m, gdate m)) a =
            some (gval m, gdate m) := by
          unfold keepOne
          rw [if_neg]
          simpa using hlt
        simp only [Option.map_some']
        rw [hone]
        have hfl : (l.find? fun x0 =>
            l.all (fun b => decide (¬ dateLtP (gdate x0) (gdate b))) &&
              decide (¬ dateLtP (gdate x0) (gdate a))) = some m :=
          find?_and_of_find? _ _ l m hm (decide_eq_true hlt)
        rw [List.find?_append, hfl]
        rfl

theorem keepFold_eq_spec {α : Type} (gid : α → List Char) (gval : α → ℚ)
    (gdate : α → Date) (entries : List α) (id : List Char) :
    alookup id (keepFold gid gval gdate entries).1 =
      (specKeepLatest gid gdate entries id).map gval ∧
    alookup id (keepFold gid gval gdate entries).2 =
      (specKeepLatest gid gdate entries id).map gdate := by
  obtain ⟨h1, h2⟩ := keepFold_lookup gid gval gdate id entries [] [] none rfl rfl
  constructor
  · rw [keepFold, h1, keepOne_spec]
    unfold specKeepLatest
    simp only [Option.map_map]
    rfl
  · rw [keepFold, h2, keepOne_spec]
    unfold specKeepLatest
    simp only [Option.map_map]
    rfl

/-- C2 counterexample: two snapshots of the same asset id with the same
value date but different values; the kept value is the FIRST encountered
(100), not the last (200), because the strict-greater-than comparison
never replaces on a tie.  This refutes the claim that the one
encountered last wins. -/
theorem C2_counterexample :
    tieAsset1.id = tieAsset2.id ∧
    tieAsset1.value_as_of = tieAsset2.value_as_of ∧
    alookup (str "a") (keepAssets [tieAsset1, tieAsset2]).1 = some tieAsset1.value ∧
    tieAsset1.value ≠ tieAsset2.value := by
  refine ⟨by decide, by decide, by decide, by decide⟩

/-- C2 (amended): in `compute_net_worth`, for every asset list only the
latest-dated value per asset id is kept, and when two entries for the
same id share the same date the one encountered FIRST in input order
wins (the comparison is strict-greater-than against the running
maximum, so a tie does not replace); likewise for liabilities by
balance date. -/
theorem C2_amended (assets : List Asset) (liabs : List Liability) (id : List Char) :
    alookup id (keepAssets assets).1 =
      (specKeepLatest Asset.id Asset.value_as_of assets id).map Asset.value ∧
    alookup id (keepAssets assets).2 =
      (specKeepLatest Asset.id Asset.value_as_of assets id).map Asset.value_as_of ∧
    alookup id (keepLiabs liabs).1 =
      (specKeepLatest Liability.id Liability.balance_as_of liabs id).map
        Liability.principal_balance ∧
    alookup id (keepLiabs liabs).2 =
      (specKeepLatest Liability.id Liability.balance_as_of liabs id).map
        Liability.balance_as_of := by
  obtain ⟨ha1, ha2⟩ := keepFold_eq_spec Asset.id Asset.value Asset.value_as_of assets id
  obtain ⟨hl1, hl2⟩ :=
    keepFold_eq_spec Liability.id Liability.principal_balance Liability.balance_as_of
      liabs id
  exact ⟨ha1, ha2, hl1, hl2⟩

/-! ### C4: confidence rollup -/

theorem keepFold_preserves_isSome {α : Type} (gid : α → List Char) (gval : α → ℚ)
    (gdate : α → Date) :
    ∀ (entries : List α) (m1 : List (List Char × ℚ)) (m2 : List (List Char × Date))
      (k : List Char),
      (alookup k m1).isSome →
      (alookup k (entries.foldl (keepStep gid gval gdate) (m1, m2)).1).isSome := by
  intro entries
  induction entries with
  | nil => intro m1 m2 k h; exact h
  | cons a rest ih =>
    intro m1 m2 k h
    rw [List.foldl_cons]
    have hs : (alookup k (keepStep gid gval gdate (m1, m2) a).1).isSome := by
      unfold keepStep
      split
      · exact alookup_aset_isSome _ _ _ _ h
      · exact h
    exact ih _ _ k hs

theorem keepFold_mem_isSome {α : Type} (gid : α → List Char) (gval : α → ℚ)
    (gdate : α → Date) :
    ∀ (entries : List α) (m1 : List (List Char × ℚ)) (m2 : List (List Char × Date))
      (a : α), a ∈ entries →
      (alookup (gid a) (entries.foldl (keepStep gid gval gdate) (m1, m2)).1).isSome := by
  intro entries
  induction entries with
  | nil => intro m1 m2 a h; simp at h
  | cons e rest ih =>
    intro m1 m2 a h
    rw [List.foldl_cons]
    rcases List.mem_cons.mp h with he | he
    · subst he
      have hs : (alookup (gid a) (keepStep gid gval gdate (m1, m2) a).1).isSome := by
        by_cases hc : (alookup (gid a) m1).isNone = true ∨
            dateLtP ((alookup (gid a) m2).getD dateMin) (gdate a)
        · unfold keepStep
          rw [if_pos hc]
          rw [alookup_aset_self]
          rfl
        · unfold keepStep
          rw [if_neg hc]
          cases hh : alookup (gid a) m1 with
          | none => exact absurd (Or.inl (by rw [hh]; rfl)) hc
          | some v => rfl
      exact keepFold_preserves_isSome gid gval gdate rest _ _ _ hs
    · exact ih _ _ a he

/-- C4 counterexample: asset id `a` has a superseded Estimated snapshot
and a kept (latest-dated) Reconciled one.  The claim's rollup over kept
entries only would be Reconciled, but `compute_net_worth` counts every
input entry (the `a.id in asset_values` filter excludes nothing), so the
result is Estimated. -/
theorem C4_counterexample :
    specConfRollup (specKeptAssets [confAsset1, confAsset2]) (specKeptLiabs []) =
      ConfidenceLevel.reconciled ∧
    (computeNetWorth ⟨2025, 6, 1⟩ [confAsset1, confAsset2] [] none).confidence_level =
      ConfidenceLevel.estimated := by
  refine ⟨by decide, by decide⟩

/-- C4 (amended): the confidence rollup of `compute_net_worth` is
computed over ALL input assets and liabilities — the membership filter
against the kept dict keys excludes nothing, because every entry's id is
a key — with ar/ae/lr/le the counts over the full lists: Reconciled when
(ar+lr) > 0 and (ae+le) = 0, Estimated when any count is nonzero
otherwise, Unknown when all are zero. -/
theorem C4_amended (today : Date) (assets : List Asset) (liabs : List Liability)
    (asOf : Option Date) :
    (computeNetWorth today assets liabs asOf).confidence_level =
      specConfRollup assets liabs := by
  unfold computeNetWorth
  by_cases h : assets = [] ∧ liabs = []
  · rw [if_pos h]
    obtain ⟨h1, h2⟩ := h
    subst h1
    subst h2
    rfl
  · rw [if_neg h]
    have hfa : assets.filter (fun a => (alookup a.id (keepAssets assets).1).isSome)
        = assets := by
      apply List.filter_eq_self.mpr
      intro a ha
      exact keepFold_mem_isSome Asset.id Asset.value Asset.value_as_of assets [] [] a ha
    have hfl : liabs.filter (fun l => (alookup l.id (keepLiabs liabs).1).isSome)
        = liabs := by
      apply List.filter_eq_self.mpr
      intro l hl
      exact keepFold_mem_isSome Liability.id Liability.principal_balance
        Liability.balance_as_of liabs [] [] l hl
    dsimp only
    rw [hfa, hfl]
    rfl

/-! ### C3: monthly allocation -/

theorem getLast?_cons_some {α : Type} (a x : α) (l : List α)
    (h : l.getLast? = some x) : (a :: l).getLast? = some x := by
  cases l with
  | nil => simp at h
  | cons y ys => rw [List.getLast?_cons_cons]; exact h

theorem alookup_budget_fold (f : Budget → ℚ) (k : List Char × List Char × List Char) :
    ∀ (budgets : List Budget) (m0 : List ((List Char × List Char × List Char) × ℚ)),
      alookup k (budgets.foldl (fun m b => aset (budgetKey b) (f b) m) m0) =
        match (budgets.filter (fun b => decide (budgetKey b = k))).getLast? with
        | some b => some (f b)
        | none => alookup k m0 := by
  intro budgets
  induction budgets with
  | nil => intro m0; rfl
  | cons b rest ih =>
    intro m0
    rw [List.foldl_cons, List.filter_cons]
    by_cases hk : budgetKey b = k
    · rw [if_pos (decide_eq_true hk)]
      rw [ih]
      rcases hlast : (rest.filter (fun b2 => decide (budgetKey b2 = k))).getLast?
        with _ | b2
      · have hnil : rest.filter (fun b2 => decide (budgetKey b2 = k)) = [] :=
          List.getLast?_eq_none_iff.mp hlast
        rw [hnil]
        rw [hk, alookup_aset_self]
        rfl
      · rw [getLast?_cons_some b b2 _ hlast]
    · rw [if_neg (by simp [hk])]
      rw [ih]
      rcases hlast : (rest.filter (fun b2 => decide (budgetKey b2 = k))).getLast?
        with _ | b2
      · exact alookup_aset_ne (f b) hk m0
      · rfl

theorem alloc_fold_mem (budgets : List Budget) :
    ∀ (todo : List Budget) (rows : List MonthlyAllocation)
      (seen : List (List Char × List Char × List Char)),
      (∀ r ∈ rows, ∃ b ∈ budgets, r = mkAllocRow budgets b) →
      (∀ b ∈ todo, b ∈ budgets) →
      ∀ r ∈ (todo.foldl
          (fun (st : List MonthlyAllocation × List (List Char × List Char × List Char)) b =>
            if budgetKey b ∈ st.2 then st
            else (st.1 ++ [mkAllocRow budgets b], budgetKey b :: st.2))
          (rows, seen)).1,
        ∃ b ∈ budgets, r = mkAllocRow budgets b := by
  intro todo
  induction todo with
  | nil => intro rows seen hrows _ r hr; exact hrows r hr
  | cons b rest ih =>
    intro rows seen hrows hsub r hr
    rw [List.foldl_cons] at hr
    have hsubr : ∀ x ∈ rest, x ∈ budgets :=
      fun x hx => hsub x (List.mem_cons_of_mem _ hx)
    by_cases hmem : budgetKey b ∈ seen
    · rw [if_pos hmem] at hr
      exact ih rows seen hrows hsubr r hr
    · rw [if_neg hmem] at hr
      refine ih _ _ ?_ hsubr r hr
      intro r2 hr2
      rcases List.mem_append.mp hr2 with h2 | h2
      · exact hrows r2 h2
      · rw [List.mem_singleton] at h2
        exact ⟨b, hsub b (List.mem_cons_self _ _), h2⟩

/-- C3 counterexample: two budget records with the same
(period, category_group, category) key, assigned 100 then 200.  The
single output row's planned is 200 — the LAST occurrence's assigned —
refuting the claim that planned comes from the first occurrence (100). -/
theorem C3_counterexample :
    budgetKey dupBudget1 = budgetKey dupBudget2 ∧
    dupBudget1.assigned = 100 ∧ dupBudget2.assigned = 200 ∧
    (getMonthlyAllocation [dupBudget1, dupBudget2]).map MonthlyAllocation.planned
      = [200] ∧
    (200 : ℚ) ≠ 100 := by
  refine ⟨by decide, by decide, by decide, by decide, by decide⟩

/-- C3 (amended): `get_monthly_allocation` emits one row per distinct
(period, category_group, category) key, positioned and labelled by the
first occurrence, but planned and actual are dict lookups overwritten by
every later duplicate: each output row's planned equals the LAST
occurrence's assigned, its actual that same last record's activity, and
variance = actual − planned; rollup comes from `ROLLUP_MAP` keyed by the
row's category group with default "other". -/
theorem C3_amended (budgets : List Budget) (r : MonthlyAllocation)
    (hr : r ∈ getMonthlyAllocation budgets) :
    ∃ b, lastWithKey (r.period, r.category_group, r.category) budgets = some b ∧
      r.planned = b.assigned ∧ r.actual = b.activity ∧
      r.variance = b.activity - b.assigned ∧
      r.rollup = (alookup r.category_group ROLLUP_MAP).getD (str "other") := by
  rw [getMonthlyAllocation] at hr
  obtain ⟨b, hb, hrb⟩ :=
    alloc_fold_mem budgets budgets [] [] (by intro r2 hr2; simp at hr2)
      (fun b hb => hb) r hr
  have hkey : (r.period, r.category_group, r.category) = budgetKey b := by
    rw [hrb]; rfl
  have hbf : b ∈ budgets.filter (fun b2 => decide (budgetKey b2 = budgetKey b)) :=
    List.mem_filter.mpr ⟨hb, by simp⟩
  rcases hlast : (budgets.filter (fun b2 => decide (budgetKey b2 = budgetKey b))).getLast?
    with _ | blast
  · rw [List.getLast?_eq_none_iff.mp hlast] at hbf
    simp at hbf
  · have hplanned : alookup (budgetKey b) (plannedMap budgets) = some blast.assigned := by
      rw [plannedMap, alookup_budget_fold Budget.assigned (budgetKey b) budgets [],
        hlast]
    have hactual : alookup (budgetKey b) (actualMap budgets) = some blast.activity := by
      rw [actualMap, alookup_budget_fold Budget.activity (budgetKey b) budgets [],
        hlast]
    refine ⟨blast, ?_, ?_, ?_, ?_, ?_⟩
    · rw [lastWithKey, hkey]
      exact hlast
    · rw [hrb]
      show ((alookup (budgetKey b) (plannedMap budgets)).getD 0) = blast.assigned
      rw [hplanned]
      rfl
    · rw [hrb]
      show ((alookup (budgetKey b) (actualMap budgets)).getD 0) = blast.activity
      rw [hactual]
      rfl
    · rw [hrb]
      show ((alookup (budgetKey b) (actualMap budgets)).getD 0) -
          ((alookup (budgetKey b) (plannedMap budgets)).getD 0)
        = blast.activity - blast.assigned
      rw [hplanned, hactual]
      rfl
    · rw [hrb]
      rfl

/-- C3 witness: the spec's own example — a single Budget row with
assigned 200 and activity −250 in group 🏠 Core yields a row with
planned 200, actual −250, variance −450, rollup `needs`. -/
theorem C3_witness :
    ∃ b, lastWithKey (coreRow.period, coreRow.category_group, coreRow.category)
        [coreBudget] = some b ∧
      coreRow.planned = b.assigned ∧ coreRow.actual = b.activity ∧
      coreRow.variance = b.activity - b.assigned ∧
      coreRow.rollup = (alookup coreRow.category_group ROLLUP_MAP).getD (str "other") :=
  C3_amended [coreBudget] coreRow (by
    rw [getMonthlyAllocation]
    simp only [List.foldl_cons, List.foldl_nil]
    rw [if_neg (by simp)]
    simp only [List.nil_append]
    rw [List.mem_singleton]
    show coreRow = mkAllocRow [coreBudget] coreBudget
    rw [mkAllocRow]
    have hp : alookup (budgetKey coreBudget) (plannedMap [coreBudget]) = some 200 := by
      decide
    have ha : alookup (budgetKey coreBudget) (actualMap [coreBudget]) = some (-250) := by
      decide
    rw [hp, ha]
    show coreRow = ⟨_, _, _, (200 : ℚ), (-250 : ℚ), (-250 : ℚ) - 200, _⟩
    rw [coreRow]
    have hv : (-450 : ℚ) = (-250 : ℚ) - 200 := by norm_num
    rw [hv]
    rfl)

/-! ### C5: starting-balance routing -/

/-- C5: a register row whose stripped payee is exactly
`"Starting Balance"`, with a parseable date, a nonempty account, and
parseable money cells, yields exactly one Asset
(id `asset_{accountId}`, value = inflow − outflow, confidence
Reconciled) when the amount is positive, and exactly one Liability
(id `liab_{accountId}`, principal_balance = |amount|, confidence
Reconciled) when it is zero or negative — and in neither case a
Transaction (the outcome is never `RowOutcome.regular`). -/
theorem C5_starting_balance (amap : List (List Char × Account)) (idx : Nat)
    (row : RegRow) (d : Date) (o i : ℚ)
    (hp : trimStr (csvStr row.payee) = str "Starting Balance")
    (hd : parseDateStr (csvStr row.date) = some d)
    (ha : ¬ trimStr (csvStr row.account) = [])
    (ho : parseDollar (.str (csvStr row.outflow)) = some o)
    (hi : parseDollar (.str (csvStr row.inflow)) = some i) :
    processRow amap idx row =
      (if 0 < i - o then
        RowOutcome.startAsset
          { id := str "asset_" ++ accountId (trimStr (csvStr row.account))
            asset_type := inferAssetType (trimStr (csvStr row.account))
              (accTypeLookup amap (accountId (trimStr (csvStr row.account))))
            name := trimStr (csvStr row.account)
            value := i - o
            value_as_of := d
            valuation_method := str "mark_to_market"
            confidence_level := ConfidenceLevel.reconciled }
      else
        RowOutcome.startLiab
          { id := str "liab_" ++ accountId (trimStr (csvStr row.account))
            liability_type := inferLiabilityType (trimStr (csvStr row.account))
              (accTypeLookup amap (accountId (trimStr (csvStr row.account))))
            name := trimStr (csvStr row.account)
            principal_balance := |i - o|
            balance_as_of := d
            linked_account_id := some (accountId (trimStr (csvStr row.account)))
            confidence_level := ConfidenceLevel.reconciled }) := by
  unfold processRow
  simp only [ho, hi, hd, hp]
  rw [if_neg ha]
  rw [if_pos trivial]

/-- C5 witness: the spec's Brokerage example — inflow 5000 / outflow 0
becomes one Asset with value 5000; inflow 0 / outflow 5000 becomes one
Liability with principal_balance 5000. -/
theorem C5_witness :
    processRow [] 0 sbRowAsset = RowOutcome.startAsset
      { id := str "asset_brokerage"
        asset_type := str "other"
        name := str "Brokerage"
        value := 5000
        value_as_of := ⟨2025, 1, 15⟩
        valuation_method := str "mark_to_market"
        confidence_level := ConfidenceLevel.reconciled } ∧
    processRow [] 1 sbRowLiab = RowOutcome.startLiab
      { id := str "liab_brokerage"
        liability_type := str "other"
        name := str "Brokerage"
        principal_balance := 5000
        balance_as_of := ⟨2025, 1, 15⟩
        linked_account_id := some (str "brokerage")
        confidence_level := ConfidenceLevel.reconciled } := by
  constructor
  · have hi : parseDollar (.str (csvStr sbRowAsset.inflow)) = some 5000 := by
      simp [parseDollar, pyFloat, csvStr, sbRowAsset, str, trimStr, removeChar,
        digitsVal]
    have h := C5_starting_balance [] 0 sbRowAsset ⟨2025, 1, 15⟩ 0 5000
      (by decide) (by decide) (by decide) (by decide) hi
    rw [h, if_pos (by norm_num : (0 : ℚ) < 5000 - 0)]
    simp only [RowOutcome.startAsset.injEq, Asset.mk.injEq]
    exact ⟨by decide, by decide, by decide, by norm_num, trivial, trivial, trivial⟩
  · have ho : parseDollar (.str (csvStr sbRowLiab.outflow)) = some 5000 := by
      simp [parseDollar, pyFloat, csvStr, sbRowLiab, str, trimStr, removeChar,
        digitsVal]
    have h := C5_starting_balance [] 1 sbRowLiab ⟨2025, 1, 15⟩ 5000 0
      (by decide) (by decide) (by decide) ho (by decide)
    rw [h, if_neg (by norm_num : ¬ (0 : ℚ) < 0 - 5000)]
    simp only [RowOutcome.startLiab.injEq, Liability.mk.injEq]
    exact ⟨by decide, by decide, by decide, by norm_num, trivial, by decide, trivial⟩

/-! ### C6: transfer pairing -/

theorem modifyAt_length {α : Type} (f : α → α) :
    ∀ (l : List α) (n : Nat), (modifyAt n f l).length = l.length := by
  intro l
  induction l with
  | nil => intro n; simp [modifyAt]
  | cons x xs ih =>
    intro n
    cases n with
    | zero => simp [modifyAt]
    | succ n => simpa [modifyAt] using ih n

theorem modifyAt_get? {α : Type} (f : α → α) :
    ∀ (l : List α) (n q : Nat),
      (modifyAt n f l).get? q = if q = n then (l.get? n).map f else l.get? q := by
  intro l
  induction l with
  | nil =>
    intro n q
    simp [modifyAt]
  | cons x xs ih =>
    intro n q
    cases n with
    | zero =>
      cases q with
      | zero => rfl
      | succ q => simp [modifyAt]
    | succ n =>
      cases q with
      | zero => simp [modifyAt]
      | succ q => simpa [modifyAt, Nat.succ_inj] using ih n q

theorem txMatch_congr {t t2 u u2 : Transaction} (ht : sameCore t t2)
    (hu : sameCore u u2) : txMatch t u = txMatch t2 u2 := by
  obtain ⟨hti, hta, htd, htam, htp, htt⟩ := ht
  obtain ⟨hui, hua, hud, huam, hup, hut⟩ := hu
  unfold txMatch otherIdOf
  rw [htp, hua, hud, huam, hut, htd, htam]

theorem sameCore_refl (t : Transaction) : sameCore t t :=
  ⟨rfl, rfl, rfl, rfl, rfl, rfl⟩

theorem sameCoreL_refl (txs : List Transaction) : sameCoreL txs txs :=
  ⟨rfl, fun _ t hq => ⟨t, hq, sameCore_refl t⟩⟩

theorem sameCoreL_lookup {cur txs : List Transaction} (h : sameCoreL cur txs)
    {j : Nat} {ot : Transaction} (hj : cur.get? j = some ot) :
    ∃ ot0, txs.get? j = some ot0 ∧ sameCore ot ot0 := by
  have hlt : j < txs.length := by
    by_contra hge
    rw [← h.1] at hge
    rw [List.get?_eq_none.mpr (Nat.le_of_not_lt hge)] at hj
    exact Option.noConfusion hj
  cases hg : txs.get? j with
  | none =>
    rw [List.get?_eq_none] at hg
    omega
  | some ot0 =>
    obtain ⟨u, hu, hcore⟩ := h.2 j ot0 hg
    rw [hj] at hu
    injection hu with hu
    subst hu
    exact ⟨ot0, rfl, hcore⟩

theorem sameCoreL_modify {cur txs : List Transaction} (h : sameCoreL cur txs)
    (n : Nat) (v : Option (List Char)) :
    sameCoreL (modifyAt n (fun t => { t with linked_transaction_id := v }) cur) txs := by
  constructor
  · rw [modifyAt_length]
    exact h.1
  · intro q t hq
    obtain ⟨u, hu, hcore⟩ := h.2 q t hq
    rw [modifyAt_get?]
    by_cases hqn : q = n
    · subst hqn
      rw [if_pos rfl, hu]
      exact ⟨_, rfl, hcore⟩
    · rw [if_neg hqn]
      exact ⟨u, hu, hcore⟩

theorem transferIdxs_spec (txs : List Transaction) :
    ∀ i ∈ transferIdxs txs, ∃ u, txs.get? i = some u ∧ u.is_transfer = true := by
  intro i hi
  unfold transferIdxs at hi
  obtain ⟨-, hp⟩ := List.mem_filter.mp hi
  cases hg : txs.get? i with
  | none => rw [hg] at hp; simp at hp
  | some u =>
    rw [hg] at hp
    exact ⟨u, rfl, hp⟩

theorem linkFold_invariant (txs : List Transaction) (p : Nat) (t : Transaction)
    (ht : txs.get? p = some t)
    (hA : ∀ j ot, j ≠ p → txs.get? j = some ot → txMatch t ot = false)
    (hB : ∀ i2 ot, i2 ≠ p → txs.get? i2 = some ot → ot.is_transfer = true →
      txMatch ot t = false) :
    ∀ (idxs : List Nat),
      (∀ i2 ∈ idxs, ∃ u, txs.get? i2 = some u ∧ u.is_transfer = true) →
      ∀ (cur : List Transaction), sameCoreL cur txs → cur.get? p = some t →
        (idxs.foldl linkStep cur).get? p = some t ∧
        sameCoreL (idxs.foldl linkStep cur) txs := by
  intro idxs
  induction idxs with
  | nil => intro _ cur hc hp; exact ⟨hp, hc⟩
  | cons i2 rest ih =>
    intro hidx cur hc hp
    rw [List.foldl_cons]
    have hstep : (linkStep cur i2).get? p = some t ∧ sameCoreL (linkStep cur i2) txs := by
      unfold linkStep
      cases hcur : cur.get? i2 with
      | none => exact ⟨hp, hc⟩
      | some tx =>
        dsimp only
        by_cases hcont : containsSub (str "Transfer :") tx.payee_raw = true
        · rw [if_pos hcont]
          cases hfm : findMatchIdx cur i2 tx with
          | none => exact ⟨hp, hc⟩
          | some j =>
            have hpred := List.find?_some hfm
            rw [Bool.and_eq_true, decide_eq_true_eq] at hpred
            obtain ⟨hji, hpm⟩ := hpred
            obtain ⟨ot, hot, hmatch⟩ : ∃ ot, cur.get? j = some ot ∧ txMatch tx ot = true := by
              cases hg : cur.get? j with
              | none => rw [hg] at hpm; simp at hpm
              | some ot => rw [hg] at hpm; exact ⟨ot, rfl, hpm⟩
            have hi2p : i2 ≠ p := by
              intro hip
              subst hip
              rw [hp] at hcur
              injection hcur with hcur
              subst hcur
              obtain ⟨ot0, hot0, hcore⟩ := sameCoreL_lookup hc hot
              have hfalse := hA j ot0 hji hot0
              rw [txMatch_congr (sameCore_refl t) hcore] at hmatch
              rw [hmatch] at hfalse
              exact Bool.noConfusion hfalse
            have hjp : j ≠ p := by
              intro hjp
              subst hjp
              rw [hp] at hot
              injection hot with hot
              subst hot
              obtain ⟨tx0, htx0, hcoretx⟩ := sameCoreL_lookup hc hcur
              obtain ⟨u, hu, hut⟩ := hidx i2 (List.mem_cons_self _ _)
              rw [htx0] at hu
              injection hu with hu
              subst hu
              have hfalse := hB i2 tx0 hi2p htx0 hut
              rw [txMatch_congr hcoretx (sameCore_refl t)] at hmatch
              rw [hmatch] at hfalse
              exact Bool.noConfusion hfalse
            constructor
            · rw [modifyAt_get?, if_neg (Ne.symm hjp), modifyAt_get?,
                if_neg (Ne.symm hi2p)]
              exact hp
            · exact sameCoreL_modify (sameCoreL_modify hc i2 _) j _
        · rw [if_neg hcont]
          exact ⟨hp, hc⟩
    exact ih (fun i3 h3 => hidx i3 (List.mem_cons_of_mem _ h3)) _ hstep.2 hstep.1

theorem sameCore_setLink (v : Option (List Char)) (t : Transaction) :
    sameCore (setLink v t) t :=
  ⟨rfl, rfl, rfl, rfl, rfl, rfl⟩

theorem linkPair (t1 t2 : Transaction)
    (h1 : t1.is_transfer = true) (h2 : t2.is_transfer = true)
    (hc1 : containsSub (str "Transfer :") t1.payee_raw = true)
    (hc2 : containsSub (str "Transfer :") t2.payee_raw = true)
    (ho1 : otherIdOf t1 = t2.account_id)
    (ho2 : otherIdOf t2 = t1.account_id)
    (hdt : t1.date_posted = t2.date_posted)
    (ham : |(|t2.amount|) - (|t1.amount|)| < 1 / 100)
    (_hacc : t1.account_id ≠ t2.account_id) :
    linkTransfers [t1, t2] = [setLink (some t2.id) t1, setLink (some t1.id) t2] := by
  have hm12 : txMatch t1 t2 = true := by
    have e1 : decide (t2.account_id = otherIdOf t1) = true :=
      decide_eq_true (by rw [ho1])
    have e2 : decide (t2.date_posted = t1.date_posted) = true :=
      decide_eq_true (by rw [hdt])
    have e3 : decide (|(|t2.amount|) - (|t1.amount|)| < 1 / 100) = true :=
      decide_eq_true ham
    unfold txMatch
    rw [h2, e1, e2, e3]
    rfl
  have ham2 : |(|t1.amount|) - (|t2.amount|)| < 1 / 100 := by
    rwa [abs_sub_comm] at ham
  have hm21 : txMatch t2 t1 = true := by
    have e1 : decide (t1.account_id = otherIdOf t2) = true :=
      decide_eq_true (by rw [ho2])
    have e2 : decide (t1.date_posted = t2.date_posted) = true :=
      decide_eq_true (by rw [hdt])
    have e3 : decide (|(|t1.amount|) - (|t2.amount|)| < 1 / 100) = true :=
      decide_eq_true ham2
    unfold txMatch
    rw [h1, e1, e2, e3]
    rfl
  have hidx : transferIdxs [t1, t2] = [0, 1] := by
    unfold transferIdxs
    have hr : List.range ([t1, t2].length) = [0, 1] := rfl
    rw [hr]
    have p0 : (fun i => match [t1, t2].get? i with
        | some t => t.is_transfer
        | none => false) 0 = true := h1
    have p1 : (fun i => match [t1, t2].get? i with
        | some t => t.is_transfer
        | none => false) 1 = true := h2
    simp only [List.filter_cons, List.filter_nil, p0, p1, if_pos]
  have step1 : linkStep [t1, t2] 0 = [setLink (some t2.id) t1, setLink (some t1.id) t2] := by
    unfold linkStep
    simp only [List.get?]
    rw [if_pos hc1]
    have hf : findMatchIdx [t1, t2] 0 t1 = some 1 := by
      unfold findMatchIdx
      have hr : List.range ([t1, t2].length) = [0, 1] := rfl
      rw [hr]
      rw [List.find?_cons_of_neg _ (by simp)]
      rw [List.find?_cons_of_pos _ (by simp only [List.get?]; rw [hm12]; rfl)]
    rw [hf]
    rfl
  have step2 : linkStep [setLink (some t2.id) t1, setLink (some t1.id) t2] 1 =
      [setLink (some t2.id) t1, setLink (some t1.id) t2] := by
    unfold linkStep
    simp only [List.get?]
    rw [show (setLink (some t1.id) t2).payee_raw = t2.payee_raw from rfl]
    rw [if_pos hc2]
    have hm : txMatch (setLink (some t1.id) t2) (setLink (some t2.id) t1) = true := by
      rw [txMatch_congr (sameCore_setLink _ t2) (sameCore_setLink _ t1)]
      exact hm21
    have hf : findMatchIdx [setLink (some t2.id) t1, setLink (some t1.id) t2] 1
        (setLink (some t1.id) t2) = some 0 := by
      unfold findMatchIdx
      have hr : List.range ([setLink (some t2.id) t1, setLink (some t1.id) t2].length)
          = [0, 1] := rfl
      rw [hr]
      rw [List.find?_cons_of_pos _ (by simp only [List.get?]; rw [hm]; rfl)]
    rw [hf]
    rfl
  rw [linkTransfers, hidx, List.foldl_cons, step1, List.foldl_cons, step2,
    List.foldl_nil]

/-- C6: transfer pairing links matching legs bidirectionally.  First
conjunct: a register of exactly two transfer transactions on different
accounts, same posting date, payees resolving to each other's account id
after `"Transfer :"` stripping, absolute amounts within 0.01, ends with
each `linked_transaction_id` referencing the other transaction's id.
Second conjunct: a transaction that no scan matches — it matches no
other transaction (account/date/amount), and no other transfer matches
it — is left exactly as it was, so its `linked_transaction_id` stays
absent. -/
theorem C6_transfer_pairing :
    (∀ t1 t2 : Transaction,
      t1.is_transfer = true → t2.is_transfer = true →
      containsSub (str "Transfer :") t1.payee_raw = true →
      containsSub (str "Transfer :") t2.payee_raw = true →
      otherIdOf t1 = t2.account_id → otherIdOf t2 = t1.account_id →
      t1.date_posted = t2.date_posted →
      |(|t2.amount|) - (|t1.amount|)| < 1 / 100 →
      t1.account_id ≠ t2.account_id →
      linkTransfers [t1, t2] = [setLink (some t2.id) t1, setLink (some t1.id) t2]) ∧
    (∀ (txs : List Transaction) (p : Nat) (t : Transaction),
      txs.get? p = some t → t.linked_transaction_id = none →
      (∀ j ot, j ≠ p → txs.get? j = some ot → txMatch t ot = false) →
      (∀ i ot, i ≠ p → txs.get? i = some ot → ot.is_transfer = true →
        txMatch ot t = false) →
      (linkTransfers txs).get? p = some t) := by
  constructor
  · intro t1 t2 h1 h2 hc1 hc2 ho1 ho2 hdt ham hacc2
    exact linkPair t1 t2 h1 h2 hc1 hc2 ho1 ho2 hdt ham hacc2
  · intro txs p t ht _hlink hA hB
    exact (linkFold_invariant txs p t ht hA hB (transferIdxs txs)
      (transferIdxs_spec txs) txs (sameCoreL_refl txs) ht).1

/-- C6 witness: two concrete transfer legs (Checking −100 / Savings
+100, same date, payees naming each other) come out linked to each
other's ids, and a lone transfer with no counterparty keeps
`linked_transaction_id` absent. -/
theorem C6_witness :
    linkTransfers [wtx1, wtx2] =
      [setLink (some (str "tx2")) wtx1, setLink (some (str "tx1")) wtx2] ∧
    (linkTransfers [wtx3]).get? 0 = some wtx3 ∧
    wtx3.linked_transaction_id = none := by
  refine ⟨?_, ?_, rfl⟩
  · exact C6_transfer_pairing.1 wtx1 wtx2 (by decide) (by decide) (by decide)
      (by decide) (by decide) (by decide) (by decide) (by norm_num [wtx1, wtx2])
      (by decide)
  · exact C6_transfer_pairing.2 [wtx3] 0 wtx3 rfl rfl
      (by
        intro j ot hj hget
        cases j with
        | zero => exact absurd rfl hj
        | succ j =>
          rw [List.get?_cons_succ, List.get?_nil] at hget
          exact Option.noConfusion hget)
      (by
        intro i ot hi hget htr
        cases i with
        | zero => exact absurd rfl hi
        | succ i =>
          rw [List.get?_cons_succ, List.get?_nil] at hget
          exact Option.noConfusion hget)

end KingOps
